import Mathlib

/-!
ffm: directory listing, sorting, size formatting and navigation

A shallow embedding of `src/ffm.c` and the properties of its listing and
navigation engine.

Modelling conventions

* A C string is the list of its bytes (`unsigned char` values as `Nat`), the
  terminating NUL left out.  Reading past the end of the list yields the NUL.
* Text that is only ever displayed (`date`, `display_info`, the size string)
  is a Lean `String`.
* `exit(EXIT_FAILURE)` and undefined behaviour are explicit results
  (`Outcome.exit_failure`, `Outcome.undefined`).
* A `double` that holds a finite value is a dyadic rational; it is kept
  exactly, as an integer significand over a power of two.
* The C library and the operating system (`qsort`, `readdir`, `lstat`,
  `realpath`, `chdir`, `realloc`, `strftime`) are parameters.
-/

namespace Ffm

/-! ## C strings -/

/-- Bytes of a NUL-terminated string, terminator excluded. -/
abbrev CStr := List Nat

/-- Bytes of an ASCII string literal (one byte per character). -/
def lit (s : String) : CStr := s.data.map Char.toNat

/-- The string a `char *` denotes: the bytes before the first NUL. -/
def c_str (s : CStr) : CStr := s.takeWhile (fun c => c != 0)

/-- `strcmp`: compares byte by byte as `unsigned char`, stops at the first
difference or at the NUL, returns the difference of the two bytes there. -/
def strcmp : CStr → CStr → Int
  | [], [] => 0
  | [], c2 :: _ => 0 - (c2 : Int)
  | c1 :: _, [] => (c1 : Int) - 0
  | c1 :: s1, c2 :: s2 =>
    if c1 = c2 then (if c1 = 0 then 0 else strcmp s1 s2) else (c1 : Int) - (c2 : Int)

/-- `strncpy(dst, src, n)` read back as a string, for `src` shorter than `n`
(otherwise `dst` holds the first `n` bytes and no terminator). -/
def strncpy (src : CStr) (n : Nat) : CStr := (c_str src).take n

/-- `snprintf(buf, n, "%s", s)`: at most `n - 1` bytes are stored. -/
def snprintf_s (n : Nat) (s : CStr) : CStr := (c_str s).take (n - 1)

/-- `snprintf(buf, n, ...)` on text already formatted: at most `n - 1`
characters are stored. -/
def snprintf (n : Nat) (s : String) : String := String.mk (s.data.take (n - 1))

/-- A well-formed file name: no NUL byte inside, at most `NAME_MAX` (255)
bytes, each byte an `unsigned char`. -/
def IsName (s : CStr) : Prop := (∀ c ∈ s, 0 < c ∧ c < 256) ∧ s.length ≤ 255

instance (s : CStr) : Decidable (IsName s) := by
  unfold IsName; exact inferInstance

/-! ## Constants of the C headers -/

def MAX_FILELIST_LEN : Nat := 128
def ENTER : Int := 10
/-- Value of `FILENAME_MAX` in `<stdio.h>` (glibc). -/
def FILENAME_MAX : Nat := 4096
/-- Value of `PATH_MAX` in `<linux/limits.h>`. -/
def PATH_MAX : Nat := 4096
/-- Largest value of an `int`. -/
def INT_MAX : Int := 2147483647

/-- Values of `d_type` in `<dirent.h>`. -/
def DT_UNKNOWN : Nat := 0
def DT_DIR : Nat := 4
def DT_REG : Nat := 8
def DT_LNK : Nat := 10

/-- Key codes of `<curses.h>`. -/
def KEY_DOWN : Int := 258
def KEY_UP : Int := 259
def KEY_LEFT : Int := 260
def KEY_RIGHT : Int := 261
def KEY_RESIZE : Int := 410

/-- `S_ISLNK(mode)`: `(mode & S_IFMT) == S_IFLNK`. -/
def S_ISLNK (mode : Nat) : Bool := mode &&& 0o170000 == 0o120000

/-! ## Data model -/

inductive SORT_TYPE
  | ALPHABETICAL
  | FILESIZE
  deriving DecidableEq

structure FILE_ENTRY where
  name : CStr
  date : String
  path : CStr
  display_info : String
  type : Nat
  size : Int
  deriving DecidableEq

structure FILE_LIST where
  filecount : Int
  files : List FILE_ENTRY
  deriving DecidableEq

/-- Result of a C function that may end the process. -/
inductive Outcome (α : Type)
  | ok (a : α)
  | exit_failure
  | undefined
  deriving DecidableEq

/-! ## Comparators -/

def cmp_entry_alphabetical (f1 f2 : FILE_ENTRY) : Int :=
  strcmp f1.name f2.name

def cmp_entry_filesize (f1 f2 : FILE_ENTRY) : Int :=
  if f1.size = f2.size then 0
  else if f1.size < f2.size then 1
  else -1

/-! ## `qsort` -/

/-- What ISO C asks of a comparison function handed to `qsort`: the sign of
`cmp a b` is opposite to that of `cmp b a`, and "not greater" is transitive. -/
structure ConsistentCmp (cmp : FILE_ENTRY → FILE_ENTRY → Int) : Prop where
  flip : ∀ a b, cmp a b < 0 ↔ 0 < cmp b a
  trans : ∀ a b c, cmp a b ≤ 0 → cmp b c ≤ 0 → cmp a c ≤ 0

/-- The library function `qsort`, on the array as a list. -/
abbrev QSort := (FILE_ENTRY → FILE_ENTRY → Int) → List FILE_ENTRY → List FILE_ENTRY

/-- What ISO C promises of `qsort`: with a consistent comparison function the
array is rearranged (a permutation) into ascending order. -/
def QsortContract (qsort : QSort) : Prop :=
  ∀ cmp, ConsistentCmp cmp → ∀ l,
    (qsort cmp l).Perm l ∧ (qsort cmp l).Pairwise (fun a b => cmp a b ≤ 0)

/-- The `switch (sort)` of `load_directory_menu`. -/
def load_directory_menu_sort (qsort : QSort) (sort : SORT_TYPE)
    (files : List FILE_ENTRY) : List FILE_ENTRY :=
  match sort with
  | SORT_TYPE.ALPHABETICAL => qsort cmp_entry_alphabetical files
  | SORT_TYPE.FILESIZE => qsort cmp_entry_filesize files

/-- Insertion step: `x` goes before the first element it is not greater than. -/
def insert_before (cmp : FILE_ENTRY → FILE_ENTRY → Int) (x : FILE_ENTRY) :
    List FILE_ENTRY → List FILE_ENTRY
  | [] => [x]
  | y :: ys => if cmp x y ≤ 0 then x :: y :: ys else y :: insert_before cmp x ys

/-- A sorting procedure of this kind: insertion from the right end, each
element before the first one it is not greater than, so that equal elements
keep their input order. -/
def qsort_stable : QSort := fun cmp l => l.foldr (insert_before cmp) []

/-- An entry with the given name, kind and size, the display fields blank
(sample data for the sorting properties). -/
def sample_entry (name : String) (type : Nat) (size : Int) : FILE_ENTRY :=
  { name := lit name, date := "", path := [], display_info := "", type := type, size := size }

/-! ## `double` and `readable_fs` -/

/-- A finite `double`, kept exactly: the dyadic rational `m / 2 ^ e`. -/
structure double where
  m : Int
  e : Nat
  deriving DecidableEq

/-- The rational number a `double` holds. -/
def double.toRat (d : double) : ℚ := (d.m : ℚ) / (2 : ℚ) ^ d.e

/-- `size >= 1024`. -/
def double.ge_1024 (d : double) : Bool := decide (1024 * (2 : Int) ^ d.e ≤ d.m)

/-- `size /= 1024`: a division by a power of two only lowers the exponent, the
significand is kept, so the quotient is exact (the operand is at least 1024
here, there is no underflow). -/
def double.div_1024 (d : double) : double := { m := d.m, e := d.e + 10 }

/-- Nearest integer to `a / b`, ties to the even one (the default IEEE 754
rounding direction). -/
def round_half_even (a b : Nat) : Nat :=
  let q := a / b
  let r := a % b
  if 2 * r > b ∨ (2 * r = b ∧ q % 2 = 1) then q + 1 else q

/-- Number of low bits of `n` that do not fit a 53-bit significand: the least
`k` with `n / 2 ^ k < 2 ^ 53` (searched over at most `fuel` bits). -/
def excess_bits : Nat → Nat → Nat
  | 0, _ => 0
  | fuel + 1, n => if n < 2 ^ 53 then 0 else excess_bits fuel (n / 2) + 1

/-- Conversion of a non-negative 64-bit integer to `double`: exact below
`2 ^ 53`, otherwise rounded to 53 significant bits. -/
def round_to_double (n : Nat) : Nat :=
  let k := excess_bits 64 n
  round_half_even n (2 ^ k) * 2 ^ k

/-- The implicit conversion of `st.st_size` (`__off_t`, 64-bit signed) to the
`double` parameter of `readable_fs`. -/
def double.of_off_t (s : Int) : double :=
  { m := if s < 0 then -(round_to_double s.natAbs : Int) else (round_to_double s.natAbs : Int),
    e := 0 }

/-- Left padding with zeros to `width` characters. -/
def pad_zeros (width : Nat) (s : String) : String :=
  String.mk (List.replicate (width - s.length) '0') ++ s

/-- Left padding with blanks to `width` characters (`%8s`). -/
def pad_blanks (width : Nat) (s : String) : String :=
  String.mk (List.replicate (width - s.length) ' ') ++ s

/-- The conversion `%.*f` of `printf`: the value rounded to `prec` decimal
places (ties to even), printed as integer part, and for `prec > 0` a point and
exactly `prec` digits. -/
def fmt_f (prec : Nat) (d : double) : String :=
  let n := round_half_even (d.m.natAbs * 10 ^ prec) (2 ^ d.e)
  let sign := if d.m < 0 then "-" else ""
  if prec = 0 then sign ++ Nat.repr n
  else sign ++ Nat.repr (n / 10 ^ prec) ++ "." ++ pad_zeros prec (Nat.repr (n % 10 ^ prec))

def units : List String := ["B", "kB", "MB", "GB", "TB", "PB", "EB", "ZB", "YB"]

/-- The `while (size >= 1024 && i <= 8)` loop of `readable_fs`; `fuel` bounds
the number of passes. -/
def readable_fs_loop : Nat → double → Nat → double × Nat
  | 0, size, i => (size, i)
  | fuel + 1, size, i =>
    if size.ge_1024 ∧ i ≤ 8 then readable_fs_loop fuel size.div_1024 (i + 1)
    else (size, i)

/-- The loop of `readable_fs` from `i = 0`: it leaves after at most nine
passes, since each pass increments `i` and a pass needs `i <= 8`. -/
def readable_fs_scale (size : double) : double × Nat := readable_fs_loop 9 size 0

/-- `readable_fs`; the result is the content of `buf`.  Reading `units[i]`
outside the nine-element array is undefined behaviour. -/
def readable_fs (size : double) (type : Nat) : Outcome String :=
  let r := readable_fs_scale size
  if type ≠ DT_DIR then
    match units[r.2]? with
    | some u => Outcome.ok (snprintf 32 (fmt_f r.2 r.1 ++ " " ++ u))
    | none => Outcome.undefined
  else Outcome.ok "<DIR>"

structure stat where
  st_size : Int
  st_mtime : Int
  st_mode : Nat

structure dirent where
  d_name : CStr
  d_type : Nat
  deriving DecidableEq

/-- The system calls and library functions an enumeration of one directory
uses, relative to that directory. -/
structure Env where
  /-- `lstat(name, &st)`: `none` when it returns -1. -/
  lstat : CStr → Option stat
  /-- `realpath(name, buf)`: `none` when it returns NULL. -/
  realpath : CStr → Option CStr
  /-- The text `format_time_string` leaves in its buffer: `strftime` of
  `localtime(&mtime)` in the locale format; `none` when `localtime` returns
  NULL (a time it cannot convert), which the function hands to `strftime`
  unchecked. -/
  format_time_string : Int → Option String
  /-- Whether `malloc` or `realloc` of that many bytes succeeds. -/
  alloc : Nat → Bool

/-- `sizeof(struct FILE_ENTRY)`: 4096 + 256 + 4096 + 812 + 1 bytes, padded to
the alignment of the 8-byte `size`, plus `size`. -/
def sizeof_FILE_ENTRY : Nat := 9272

/-- `resolve_absolute_path`: the return value and the string left in
`path_buffer`. -/
def resolve_absolute_path (env : Env) (filename : CStr) (mode : Nat) :
    Outcome (Int × CStr) :=
  match env.realpath filename with
  | some p => Outcome.ok (1, p)
  | none => if S_ISLNK mode then Outcome.ok (0, []) else Outcome.exit_failure

def get_file_entry (env : Env) (dp : dirent) : Outcome FILE_ENTRY :=
  match env.lstat dp.d_name with
  | none => Outcome.exit_failure
  | some st =>
    let name := snprintf_s FILENAME_MAX dp.d_name
    let size := st.st_size
    let type := dp.d_type
    match env.format_time_string st.st_mtime with
    | none => Outcome.undefined
    | some date =>
      match readable_fs (double.of_off_t st.st_size) type with
      | Outcome.exit_failure => Outcome.exit_failure
      | Outcome.undefined => Outcome.undefined
      | Outcome.ok size_str =>
        let display_info := snprintf 812 (pad_blanks 8 size_str ++ "  |  " ++ date)
        match resolve_absolute_path env dp.d_name st.st_mode with
        | Outcome.exit_failure => Outcome.exit_failure
        | Outcome.undefined => Outcome.undefined
        | Outcome.ok (r, path) =>
          Outcome.ok
            { name := name, date := date, path := path,
              display_info := if r = 0 then snprintf 15 "broken symlink" else display_info,
              type := type, size := size }

/-- `ensure_list_capacity`: the return value and the new `*capacity`.  The
doubling of an `int` beyond `INT_MAX` is undefined behaviour. -/
def ensure_list_capacity (env : Env) (fl : FILE_LIST) (capacity : Int) :
    Outcome (Int × Int) :=
  if fl.filecount < capacity then Outcome.ok (0, capacity)
  else if capacity * 2 > INT_MAX then Outcome.undefined
  else
    let capacity := capacity * 2
    if env.alloc (capacity.toNat * sizeof_FILE_ENTRY) then Outcome.ok (0, capacity)
    else Outcome.ok (-1, capacity)

/-- The assignment `fl.files[fl.filecount++] = e` on a buffer of `capacity`
elements of which the first `fl.files.length` are initialised. -/
def store_entry (fl : FILE_LIST) (capacity : Int) (e : FILE_ENTRY) : Outcome FILE_LIST :=
  if 0 ≤ fl.filecount ∧ fl.filecount < capacity then
    Outcome.ok
      { filecount := fl.filecount + 1,
        files := fl.files.take fl.filecount.toNat ++ [e] ++ fl.files.drop (fl.filecount.toNat + 1) }
  else Outcome.undefined

/-- The `while ((dp = readdir(dirp)) != NULL)` loop of
`get_files_in_directory`, over the entries `readdir` delivers. -/
def get_files_loop (env : Env) : List dirent → FILE_LIST → Int → Outcome FILE_LIST
  | [], fl, _ => Outcome.ok fl
  | dp :: rest, fl, capacity =>
    if strcmp dp.d_name (lit ".") = 0 then get_files_loop env rest fl capacity
    else if strcmp dp.d_name (lit "..") = 0 then get_files_loop env rest fl capacity
    else
      match ensure_list_capacity env fl capacity with
      | Outcome.exit_failure => Outcome.exit_failure
      | Outcome.undefined => Outcome.undefined
      | Outcome.ok (r, capacity) =>
        if r = -1 then Outcome.exit_failure
        else
          match get_file_entry env dp with
          | Outcome.exit_failure => Outcome.exit_failure
          | Outcome.undefined => Outcome.undefined
          | Outcome.ok e =>
            match store_entry fl capacity e with
            | Outcome.exit_failure => Outcome.exit_failure
            | Outcome.undefined => Outcome.undefined
            | Outcome.ok fl => get_files_loop env rest fl capacity

/-- `get_files_in_directory`; `dir` is what `opendir` and the successive
`readdir` calls deliver (`none` when `opendir` fails). -/
def get_files_in_directory (env : Env) (dir : Option (List dirent)) : Outcome FILE_LIST :=
  match dir with
  | none => Outcome.exit_failure
  | some entries =>
    if env.alloc (MAX_FILELIST_LEN * sizeof_FILE_ENTRY) then
      get_files_loop env entries { filecount := 0, files := [] } (MAX_FILELIST_LEN : Nat)
    else Outcome.exit_failure

/-- The names left by the two `continue` filters of the enumeration loop. -/
def kept_names (entries : List dirent) : List CStr :=
  (entries.map (fun dp => dp.d_name)).filter (fun n => n ≠ lit "." ∧ n ≠ lit "..")

/-- The entry `dp` can be resolved without ending the process: `lstat`
succeeds, with a size in the range of `__off_t` and a modification time that
`localtime` converts, and `realpath` succeeds unless the entry is a symbolic
link. -/
def Resolvable (env : Env) (dp : dirent) : Prop :=
  ∃ st, env.lstat dp.d_name = some st ∧ st.st_size < 2 ^ 63 ∧
    (env.format_time_string st.st_mtime).isSome = true ∧
    ((env.realpath dp.d_name).isSome = true ∨ S_ISLNK st.st_mode = true)

/-- A directory in which every name is a 10-byte regular file modified at
time 0, every path resolves below `/tmp`, and no allocation fails. -/
def sample_env : Env :=
  { lstat := fun _ => some { st_size := 10, st_mtime := 0, st_mode := 0o100644 },
    realpath := fun n => some (lit "/tmp/" ++ n),
    format_time_string := fun _ => some "Thu Jan  1 00:00:00 1970",
    alloc := fun _ => true }

/-- What `readdir` delivers for a directory that holds `a.txt` and 130 more
entries, more than the initial capacity. -/
def sample_dir : List dirent :=
  [dirent.mk (lit ".") DT_DIR, dirent.mk (lit "a.txt") DT_REG, dirent.mk (lit "..") DT_DIR] ++
    List.replicate 130 (dirent.mk (lit "b") DT_REG)

/-! ## Navigation -/

/-- The operating system as the navigation loop sees it; the first argument
of each field is the working directory of the process. -/
structure OS where
  /-- `chdir(path)`: the working directory afterwards (the same one when the
  call fails; the program ignores the return value). -/
  chdir : CStr → CStr → CStr
  /-- `getcwd`: `none` when it returns NULL. -/
  getcwd : CStr → Option CStr
  /-- `opendir(".")` followed by `readdir` until NULL. -/
  readdir : CStr → Option (List dirent)
  /-- The view of the rest of the system from a working directory. -/
  env : CStr → Env

/-- The variables of `main` that make up the navigation state. -/
structure NavState where
  current_dir : CStr
  current_sort : SORT_TYPE
  should_reload : Bool
  deriving DecidableEq

/-- The `switch (c)` of the loop in `main`; `sel` is the entry attached to
`current_item(menu)` (`none` when there is no current item, in which case
`get_item_file` dereferences a null pointer). -/
def handle_key (c : Int) (sel : Option FILE_ENTRY) (st : NavState) : Outcome NavState :=
  if c = KEY_DOWN then Outcome.ok st
  else if c = KEY_UP then Outcome.ok st
  else if c = KEY_LEFT then
    Outcome.ok { st with current_dir := strncpy (lit "..") 3, should_reload := true }
  else if c = KEY_RIGHT ∨ c = ENTER then
    match sel with
    | none => Outcome.undefined
    | some curr_file =>
      if curr_file.type = DT_DIR ∨ curr_file.type = DT_LNK then
        Outcome.ok { st with current_dir := strncpy curr_file.path PATH_MAX, should_reload := true }
      else Outcome.ok st
  else if c = ('s'.toNat : Int) then
    if st.current_sort ≠ SORT_TYPE.FILESIZE then
      Outcome.ok { st with current_sort := SORT_TYPE.FILESIZE, should_reload := true }
    else Outcome.ok st
  else if c = ('a'.toNat : Int) then
    if st.current_sort ≠ SORT_TYPE.ALPHABETICAL then
      Outcome.ok { st with current_sort := SORT_TYPE.ALPHABETICAL, should_reload := true }
    else Outcome.ok st
  else if c = KEY_RESIZE then Outcome.ok { st with should_reload := true }
  else Outcome.ok st

/-- The first step of `load_directory_menu`: `chdir(buf)` unless the target
path is the empty string.  The result is the working directory afterwards. -/
def load_directory_menu_chdir (os : OS) (target_path : CStr) (cwd : CStr) : CStr :=
  if strcmp target_path (lit "") ≠ 0 then os.chdir cwd target_path else cwd

/-- `load_directory_menu` up to the hand-over to the menu toolkit: the working
directory afterwards and the sorted listing. -/
def load_directory_menu (os : OS) (qsort : QSort) (target_path : CStr) (sort : SORT_TYPE)
    (cwd : CStr) : Outcome (CStr × FILE_LIST) :=
  let cwd := load_directory_menu_chdir os target_path cwd
  match os.getcwd cwd with
  | none => Outcome.exit_failure
  | some _ =>
    match get_files_in_directory (os.env cwd) (os.readdir cwd) with
    | Outcome.exit_failure => Outcome.exit_failure
    | Outcome.undefined => Outcome.undefined
    | Outcome.ok fl =>
      Outcome.ok (cwd, { fl with files := load_directory_menu_sort qsort sort fl.files })

/-- The process while the loop of `main` runs: the navigation variables, the
working directory and the listing on display. -/
structure Proc where
  nav : NavState
  cwd : CStr
  fl : FILE_LIST
  deriving DecidableEq

/-- The state of `main` on entry to the loop; `start_path` is `argv[1]` or
`"."`, which `realpath` resolves into `current_dir`. -/
def main_init (os : OS) (cwd : CStr) (start_path : CStr) : Outcome Proc :=
  match (os.env cwd).realpath start_path with
  | none => Outcome.exit_failure
  | some p =>
    Outcome.ok
      { nav := { current_dir := p, current_sort := SORT_TYPE.ALPHABETICAL,
                 should_reload := true },
        cwd := cwd, fl := { filecount := 0, files := [] } }

/-- The `if (should_reload)` block at the head of the loop body. -/
def main_reload (os : OS) (qsort : QSort) (p : Proc) : Outcome Proc :=
  if p.nav.should_reload then
    match load_directory_menu os qsort p.nav.current_dir p.nav.current_sort p.cwd with
    | Outcome.exit_failure => Outcome.exit_failure
    | Outcome.undefined => Outcome.undefined
    | Outcome.ok (cwd, fl) =>
      Outcome.ok { nav := { p.nav with should_reload := false }, cwd := cwd, fl := fl }
  else Outcome.ok p

/-- One pass of the loop in `main`: the reload if requested, then the key `c`
read by `getch` is handled.  `none` is the `break` on `q`. -/
def main_pass (os : OS) (qsort : QSort) (c : Int) (sel : Option FILE_ENTRY) (p : Proc) :
    Outcome (Option Proc) :=
  match main_reload os qsort p with
  | Outcome.exit_failure => Outcome.exit_failure
  | Outcome.undefined => Outcome.undefined
  | Outcome.ok p =>
    if c = ('q'.toNat : Int) then Outcome.ok none
    else
      match handle_key c sel p.nav with
      | Outcome.exit_failure => Outcome.exit_failure
      | Outcome.undefined => Outcome.undefined
      | Outcome.ok nav => Outcome.ok (some { p with nav := nav })

/-- The working directory once the pending reload, if any, has run. -/
def cwd_after_reload (os : OS) (p : Proc) : CStr :=
  if p.nav.should_reload then load_directory_menu_chdir os p.nav.current_dir p.cwd else p.cwd

/-- The loop of `main` over the keys `getch` returns one after the other, each
with the entry selected at that moment, up to the `getch` that follows the
last of them: the result is the process as that `getch` sees it, every
requested reload done. -/
def main_run (os : OS) (qsort : QSort) : List (Int × Option FILE_ENTRY) → Proc → Outcome Proc
  | [], p => main_reload os qsort p
  | (c, sel) :: rest, p =>
    match main_pass os qsort c sel p with
    | Outcome.exit_failure => Outcome.exit_failure
    | Outcome.undefined => Outcome.undefined
    | Outcome.ok none => main_reload os qsort p
    | Outcome.ok (some p2) => main_run os qsort rest p2

/-- The program from its start in working directory `cwd` with the argument
`start_path`, run over the keys `keys`. -/
def main_from (os : OS) (qsort : QSort) (cwd start_path : CStr)
    (keys : List (Int × Option FILE_ENTRY)) : Outcome Proc :=
  match main_init os cwd start_path with
  | Outcome.exit_failure => Outcome.exit_failure
  | Outcome.undefined => Outcome.undefined
  | Outcome.ok p => main_run os qsort keys p

/-- The working directory of a running process, the directory on display. -/
def working_directory : Outcome Proc → Option CStr
  | Outcome.ok p => some p.cwd
  | _ => none

/-- The parent of an absolute path without symbolic links: the path without
its last component, the root for the root. -/
def parent_dir (p : CStr) : CStr :=
  let r := ((p.reverse.dropWhile (fun c => c != 47)).drop 1).reverse
  if r = [] then [47] else r

/-- A system in which every absolute path names an empty directory without
symbolic links: `chdir("..")` moves to the parent, `chdir` of an absolute path
moves there, `realpath` of an absolute path is that path. -/
def sample_os : OS :=
  { chdir := fun cwd target =>
      if target = lit ".." then parent_dir cwd
      else if target.head? = some 47 then target else cwd,
    getcwd := fun cwd => some cwd,
    readdir := fun _ => some [],
    env := fun _ => { sample_env with realpath := fun n => some n } }

/-- A directory whose entry `dangling` is a symbolic link to a missing
target: `lstat` reports a link, `realpath` fails. -/
def broken_link_env : Env :=
  { lstat := fun _ => some { st_size := 7, st_mtime := 0, st_mode := 0o120777 },
    realpath := fun _ => none,
    format_time_string := fun _ => some "Thu Jan  1 00:00:00 1970",
    alloc := fun _ => true }

end Ffm
namespace Ffm

/-! ## Lemmas on `strcmp` -/

theorem cons_lt_cons_iff (a b : Nat) (x y : CStr) :
    a :: x < b :: y ↔ a < b ∨ (a = b ∧ x < y) := by
  constructor
  · intro h
    cases h with
    | cons h => exact Or.inr ⟨rfl, h⟩
    | rel h => exact Or.inl h
  · rintro (h | ⟨rfl, h⟩)
    · exact List.Lex.rel h
    · exact List.Lex.cons h

theorem not_lt_nil (x : CStr) : ¬ x < ([] : CStr) := by
  intro h; cases h

theorem nil_lt_cons (b : Nat) (y : CStr) : ([] : CStr) < b :: y := List.Lex.nil

theorem c_str_nil : c_str [] = [] := rfl

theorem c_str_cons (c : Nat) (s : CStr) :
    c_str (c :: s) = if c = 0 then [] else c :: c_str s := by
  by_cases h : c = 0 <;> simp [c_str, List.takeWhile_cons, h]

theorem c_str_of_no_nul (s : CStr) (h : 0 ∉ s) : c_str s = s := by
  induction s with
  | nil => rfl
  | cons c s ih =>
    have hc : c ≠ 0 := fun hc => h (by simp [hc])
    have hs : 0 ∉ s := fun hs => h (by simp [hs])
    rw [c_str_cons, if_neg hc, ih hs]

theorem strcmp_neg_iff (s1 s2 : CStr) : strcmp s1 s2 < 0 ↔ c_str s1 < c_str s2 := by
  induction s1 generalizing s2 with
  | nil =>
    cases s2 with
    | nil => simp [strcmp, c_str_nil]
    | cons c2 t2 =>
      rw [c_str_cons]
      by_cases h : c2 = 0
      · simp [strcmp, h, c_str_nil]
      · simp only [strcmp, c_str_nil, if_neg h]
        constructor
        · intro _; exact nil_lt_cons _ _
        · intro _; omega
  | cons c1 t1 ih =>
    cases s2 with
    | nil =>
      simp only [strcmp, c_str_nil]
      constructor
      · intro h; omega
      · intro h; exact absurd h (not_lt_nil _)
    | cons c2 t2 =>
      rw [c_str_cons, c_str_cons]
      simp only [strcmp]
      by_cases h12 : c1 = c2
      · subst h12
        by_cases h0 : c1 = 0
        · simp [h0]
        · simp [h0, ih, cons_lt_cons_iff]
      · simp only [if_neg h12]
        by_cases h1 : c1 = 0
        · have h2 : c2 ≠ 0 := fun h => h12 (h1.trans h.symm)
          simp only [if_pos h1, if_neg h2]
          constructor
          · intro _; exact nil_lt_cons _ _
          · intro _; omega
        · by_cases h2 : c2 = 0
          · simp only [if_neg h1, if_pos h2]
            constructor
            · intro h; omega
            · intro h; exact absurd h (not_lt_nil _)
          · simp only [if_neg h1, if_neg h2, cons_lt_cons_iff]
            constructor
            · intro h; left; omega
            · rintro (h | ⟨h, _⟩)
              · omega
              · exact absurd h h12

theorem strcmp_flip (s1 s2 : CStr) : strcmp s1 s2 < 0 ↔ 0 < strcmp s2 s1 := by
  induction s1 generalizing s2 with
  | nil =>
    cases s2 with
    | nil => simp [strcmp]
    | cons c2 t2 => simp only [strcmp]; omega
  | cons c1 t1 ih =>
    cases s2 with
    | nil => simp only [strcmp]; omega
    | cons c2 t2 =>
      simp only [strcmp]
      by_cases h12 : c1 = c2
      · subst h12
        by_cases h0 : c1 = 0
        · simp [h0]
        · simp only [if_true, if_neg h0]; exact ih t2
      · have h21 : ¬ c2 = c1 := fun h => h12 h.symm
        simp only [if_neg h12, if_neg h21]; omega

theorem strcmp_pos_iff (s1 s2 : CStr) : 0 < strcmp s1 s2 ↔ c_str s2 < c_str s1 := by
  rw [← strcmp_flip, strcmp_neg_iff]

theorem strcmp_le_iff (s1 s2 : CStr) : strcmp s1 s2 ≤ 0 ↔ c_str s1 ≤ c_str s2 := by
  rw [← not_lt, strcmp_pos_iff, not_lt]

theorem strcmp_eq_zero_iff (s1 s2 : CStr) : strcmp s1 s2 = 0 ↔ c_str s1 = c_str s2 := by
  constructor
  · intro h
    apply le_antisymm
    · rw [← strcmp_le_iff]; omega
    · rw [← not_lt, ← strcmp_neg_iff]; omega
  · intro h
    have h1 : ¬ strcmp s1 s2 < 0 := by rw [strcmp_neg_iff, h]; exact lt_irrefl _
    have h2 : ¬ 0 < strcmp s1 s2 := by rw [strcmp_pos_iff, h]; exact lt_irrefl _
    omega

theorem cmp_entry_alphabetical_consistent : ConsistentCmp cmp_entry_alphabetical where
  flip := fun a b => strcmp_flip a.name b.name
  trans := fun a b c h1 h2 => by
    unfold cmp_entry_alphabetical at *
    rw [strcmp_le_iff] at *
    exact le_trans h1 h2

theorem cmp_entry_filesize_le_iff (a b : FILE_ENTRY) :
    cmp_entry_filesize a b ≤ 0 ↔ b.size ≤ a.size := by
  unfold cmp_entry_filesize
  split_ifs <;> omega

theorem cmp_entry_filesize_consistent : ConsistentCmp cmp_entry_filesize where
  flip := fun a b => by
    unfold cmp_entry_filesize
    split_ifs <;> omega
  trans := fun a b c h1 h2 => by
    rw [cmp_entry_filesize_le_iff] at *
    omega

/-! ## A sorting procedure that meets the contract of `qsort` -/

theorem insert_before_perm (cmp : FILE_ENTRY → FILE_ENTRY → Int) (x : FILE_ENTRY)
    (l : List FILE_ENTRY) : (insert_before cmp x l).Perm (x :: l) := by
  induction l with
  | nil => exact List.Perm.refl _
  | cons y ys ih =>
    unfold insert_before
    split_ifs
    · exact List.Perm.refl _
    · exact (List.Perm.cons y ih).trans (List.Perm.swap x y ys)

theorem insert_before_sorted (cmp : FILE_ENTRY → FILE_ENTRY → Int) (hc : ConsistentCmp cmp)
    (x : FILE_ENTRY) (l : List FILE_ENTRY) (hl : l.Pairwise (fun a b => cmp a b ≤ 0)) :
    (insert_before cmp x l).Pairwise (fun a b => cmp a b ≤ 0) := by
  induction l with
  | nil => simp [insert_before]
  | cons y ys ih =>
    have hy := List.pairwise_cons.mp hl
    unfold insert_before
    split_ifs with hxy
    · refine List.pairwise_cons.mpr ⟨?_, hl⟩
      intro z hz
      rcases List.mem_cons.mp hz with rfl | hz
      · exact hxy
      · exact hc.trans _ _ _ hxy (hy.1 z hz)
    · refine List.pairwise_cons.mpr ⟨?_, ih hy.2⟩
      intro z hz
      rcases List.mem_cons.mp ((insert_before_perm cmp x ys).subset hz) with rfl | hz
      · have := (hc.flip y z).mpr (by omega)
        omega
      · exact hy.1 z hz

theorem qsort_stable_contract : QsortContract qsort_stable := by
  intro cmp hc l
  induction l with
  | nil => exact ⟨List.Perm.refl _, List.Pairwise.nil⟩
  | cons x xs ih =>
    refine ⟨?_, ?_⟩
    · exact (insert_before_perm cmp x _).trans (List.Perm.cons x ih.1)
    · exact insert_before_sorted cmp hc x _ ih.2

end Ffm
namespace Ffm

/-! ## Sorting -/

/-- C1. For every listing whose names are proper C strings, sorting in
ALPHABETICAL mode (any `qsort` that meets the ISO C contract, with
`cmp_entry_alphabetical`) yields a permutation of the input in which every
adjacent pair `(a, b)` has `a.name ≤ b.name` in byte-wise lexicographic order. -/
theorem sort_alphabetical_sorted_perm (qsort : QSort) (hq : QsortContract qsort)
    (l : List FILE_ENTRY) (hn : ∀ e ∈ l, 0 ∉ e.name) :
    (load_directory_menu_sort qsort SORT_TYPE.ALPHABETICAL l).Perm l ∧
      (load_directory_menu_sort qsort SORT_TYPE.ALPHABETICAL l).Chain'
        (fun a b => a.name ≤ b.name) := by
  have h := hq cmp_entry_alphabetical cmp_entry_alphabetical_consistent l
  refine ⟨h.1, ?_⟩
  apply List.Pairwise.chain'
  have hmem : ∀ e ∈ qsort cmp_entry_alphabetical l, 0 ∉ e.name :=
    fun e he => hn e (h.1.subset he)
  have h2 := List.Pairwise.and_mem.mp h.2
  refine h2.imp ?_
  rintro a b ⟨ha, hb, hab⟩
  have := (strcmp_le_iff a.name b.name).mp hab
  rwa [c_str_of_no_nul _ (hmem a ha), c_str_of_no_nul _ (hmem b hb)] at this

/-- C2. For every listing, sorting in FILESIZE mode (any `qsort` that meets
the ISO C contract, with `cmp_entry_filesize`) yields a permutation of the
input in which every adjacent pair `(a, b)` has `a.size ≥ b.size`, for all
integer sizes, negative ones included; the comparator looks at the size
alone, whatever the kind of the entries. -/
theorem sort_filesize_sorted_perm (qsort : QSort) (hq : QsortContract qsort)
    (l : List FILE_ENTRY) :
    (load_directory_menu_sort qsort SORT_TYPE.FILESIZE l).Perm l ∧
      (load_directory_menu_sort qsort SORT_TYPE.FILESIZE l).Chain'
        (fun a b => a.size ≥ b.size) ∧
      (∀ a b a2 b2 : FILE_ENTRY, a.size = a2.size → b.size = b2.size →
        cmp_entry_filesize a b = cmp_entry_filesize a2 b2) := by
  have h := hq cmp_entry_filesize cmp_entry_filesize_consistent l
  refine ⟨h.1, ?_, ?_⟩
  · apply List.Pairwise.chain'
    refine h.2.imp ?_
    intro a b hab
    exact (cmp_entry_filesize_le_iff a b).mp hab
  · intro a b a2 b2 ha hb
    unfold cmp_entry_filesize
    rw [ha, hb]

end Ffm
namespace Ffm

theorem sort_alphabetical_sorted_perm_witness :
    QsortContract qsort_stable ∧
      (∀ e ∈ [sample_entry "b.txt" DT_REG 10, sample_entry "a" DT_DIR 4096,
          sample_entry "Z" DT_LNK 7], 0 ∉ e.name) ∧
      ((load_directory_menu_sort qsort_stable SORT_TYPE.ALPHABETICAL
          [sample_entry "b.txt" DT_REG 10, sample_entry "a" DT_DIR 4096,
            sample_entry "Z" DT_LNK 7]).Perm
          [sample_entry "b.txt" DT_REG 10, sample_entry "a" DT_DIR 4096,
            sample_entry "Z" DT_LNK 7] ∧
        (load_directory_menu_sort qsort_stable SORT_TYPE.ALPHABETICAL
          [sample_entry "b.txt" DT_REG 10, sample_entry "a" DT_DIR 4096,
            sample_entry "Z" DT_LNK 7]).Chain' (fun a b => a.name ≤ b.name)) ∧
      load_directory_menu_sort qsort_stable SORT_TYPE.ALPHABETICAL
          [sample_entry "b.txt" DT_REG 10, sample_entry "a" DT_DIR 4096,
            sample_entry "Z" DT_LNK 7] =
        [sample_entry "Z" DT_LNK 7, sample_entry "a" DT_DIR 4096,
          sample_entry "b.txt" DT_REG 10] :=
  ⟨qsort_stable_contract, by decide,
    sort_alphabetical_sorted_perm qsort_stable qsort_stable_contract _ (by decide),
    by decide⟩

theorem sort_filesize_sorted_perm_witness :
    QsortContract qsort_stable ∧
      ((load_directory_menu_sort qsort_stable SORT_TYPE.FILESIZE
          [sample_entry "readme.txt" DT_REG 10, sample_entry "docs" DT_DIR 4096,
            sample_entry "odd" DT_REG (-5), sample_entry "big" DT_REG 9223372036854775807]).Perm
          [sample_entry "readme.txt" DT_REG 10, sample_entry "docs" DT_DIR 4096,
            sample_entry "odd" DT_REG (-5), sample_entry "big" DT_REG 9223372036854775807] ∧
        (load_directory_menu_sort qsort_stable SORT_TYPE.FILESIZE
          [sample_entry "readme.txt" DT_REG 10, sample_entry "docs" DT_DIR 4096,
            sample_entry "odd" DT_REG (-5),
            sample_entry "big" DT_REG 9223372036854775807]).Chain'
          (fun a b => a.size ≥ b.size) ∧
        (∀ a b a2 b2 : FILE_ENTRY, a.size = a2.size → b.size = b2.size →
          cmp_entry_filesize a b = cmp_entry_filesize a2 b2)) ∧
      load_directory_menu_sort qsort_stable SORT_TYPE.FILESIZE
          [sample_entry "readme.txt" DT_REG 10, sample_entry "docs" DT_DIR 4096,
            sample_entry "odd" DT_REG (-5), sample_entry "big" DT_REG 9223372036854775807] =
        [sample_entry "big" DT_REG 9223372036854775807, sample_entry "docs" DT_DIR 4096,
          sample_entry "readme.txt" DT_REG 10, sample_entry "odd" DT_REG (-5)] :=
  ⟨qsort_stable_contract,
    sort_filesize_sorted_perm qsort_stable qsort_stable_contract _, by decide⟩

/-! ### Idempotence -/

end Ffm
namespace Ffm

/-! ## Size formatting -/

theorem readable_fs_loop_stop (fuel : Nat) (d : double) (i : Nat)
    (h : d.m < 1024 * (2 : Int) ^ d.e ∨ 8 < i) : readable_fs_loop fuel d i = (d, i) := by
  cases fuel with
  | zero => rfl
  | succ f =>
    unfold readable_fs_loop
    have : ¬ (d.ge_1024 = true ∧ i ≤ 8) := by
      rintro ⟨h1, h2⟩
      simp only [double.ge_1024, decide_eq_true_eq] at h1
      omega
    rw [if_neg this]

theorem readable_fs_loop_advance (j : Nat) : ∀ (fuel : Nat) (d : double) (i : Nat),
    (∀ t < j, 1024 * (2 : Int) ^ (d.e + 10 * t) ≤ d.m) → j ≤ fuel → i + j ≤ 9 →
    readable_fs_loop fuel d i =
      readable_fs_loop (fuel - j) { m := d.m, e := d.e + 10 * j } (i + j) := by
  induction j with
  | zero => intro fuel d i _ _ _; rfl
  | succ j ih =>
    intro fuel d i hb hf hi
    cases fuel with
    | zero => omega
    | succ f =>
      have h0 := hb 0 (by omega)
      simp only [Nat.mul_zero, Nat.add_zero] at h0
      have hg : d.ge_1024 = true ∧ i ≤ 8 := by
        refine ⟨?_, by omega⟩
        simp only [double.ge_1024, decide_eq_true_eq]
        exact h0
      have hstep : readable_fs_loop (f + 1) d i = readable_fs_loop f d.div_1024 (i + 1) := by
        rw [readable_fs_loop, if_pos hg]
      rw [hstep, ih f d.div_1024 (i + 1) ?_ (by omega) (by omega)]
      · have e1 : f - j = f + 1 - (j + 1) := by omega
        have e2 : d.div_1024.e + 10 * j = d.e + 10 * (j + 1) := by
          simp only [double.div_1024]; omega
        have e3 : i + 1 + j = i + (j + 1) := by omega
        rw [e1, e2, e3]
        rfl
      · intro t ht
        have := hb (t + 1) (by omega)
        have e : d.div_1024.e + 10 * t = d.e + 10 * (t + 1) := by
          simp only [double.div_1024]; omega
        rw [e]
        exact this

theorem pow_1024 (k : Nat) : (1024 : Nat) ^ k = 2 ^ (10 * k) := by
  rw [pow_mul]; norm_num

/-- The loop on a non-negative integer value `n`: when `k ≤ 9` is the least
number with `n < 1024 ^ (k + 1)`, it makes `k` passes. -/
theorem readable_fs_scale_nat (n k : Nat) (hlo : k = 0 ∨ 1024 ^ k ≤ n)
    (hhi : n < 1024 ^ (k + 1) ∨ k = 9) (hk : k ≤ 9) :
    readable_fs_scale { m := n, e := 0 } = ({ m := n, e := 10 * k }, k) := by
  unfold readable_fs_scale
  rw [readable_fs_loop_advance k 9 _ 0 ?_ hk (by omega)]
  · simp only [Nat.zero_add]
    apply readable_fs_loop_stop
    rcases hhi with hhi | hhi
    · left
      show (n : Int) < 1024 * (2 : Int) ^ (10 * k)
      have : (1024 : Nat) ^ (k + 1) = 1024 * 2 ^ (10 * k) := by
        rw [pow_succ, pow_1024]; ring
      rw [this] at hhi
      exact_mod_cast hhi
    · right; omega
  · intro t ht
    show 1024 * (2 : Int) ^ (0 + 10 * t) ≤ (n : Int)
    rcases hlo with hlo | hlo
    · omega
    · have h1 : (1024 : Nat) ^ (t + 1) ≤ 1024 ^ k :=
        Nat.pow_le_pow_right (by norm_num) (by omega)
      have h2 : (1024 : Nat) ^ (t + 1) = 1024 * 2 ^ (0 + 10 * t) := by
        rw [pow_succ, pow_1024, Nat.zero_add]; ring
      rw [h2] at h1
      have h3 : 1024 * 2 ^ (0 + 10 * t) ≤ n := le_trans h1 hlo
      exact_mod_cast h3

end Ffm
namespace Ffm

theorem excess_bits_le (fuel n : Nat) : excess_bits fuel n ≤ fuel := by
  induction fuel generalizing n with
  | zero => simp [excess_bits]
  | succ f ih =>
    unfold excess_bits
    split_ifs
    · omega
    · have := ih (n / 2); omega

theorem round_half_even_le (a b : Nat) : round_half_even a b ≤ a / b + 1 := by
  unfold round_half_even
  simp only
  split_ifs <;> omega

theorem round_to_double_lt (n : Nat) (h : n < 2 ^ 63) : round_to_double n < 1024 ^ 7 := by
  unfold round_to_double
  simp only
  have hk := excess_bits_le 64 n
  have h1 := round_half_even_le n (2 ^ excess_bits 64 n)
  have h2 : (2 : Nat) ^ excess_bits 64 n ≤ 2 ^ 64 := Nat.pow_le_pow_right (by norm_num) hk
  have h3 : n / 2 ^ excess_bits 64 n * 2 ^ excess_bits 64 n ≤ n := Nat.div_mul_le_self _ _
  calc round_half_even n (2 ^ excess_bits 64 n) * 2 ^ excess_bits 64 n
      ≤ (n / 2 ^ excess_bits 64 n + 1) * 2 ^ excess_bits 64 n := Nat.mul_le_mul_right _ h1
    _ = n / 2 ^ excess_bits 64 n * 2 ^ excess_bits 64 n + 2 ^ excess_bits 64 n := by ring
    _ ≤ n + 2 ^ 64 := Nat.add_le_add h3 h2
    _ < 1024 ^ 7 := by
      have : n + 2 ^ 64 < 2 ^ 63 + 2 ^ 64 := by omega
      exact lt_trans this (by norm_num)

theorem of_off_t_nat (s : Nat) :
    double.of_off_t (s : Int) = { m := (round_to_double s : Nat), e := 0 } := by
  unfold double.of_off_t
  have : ¬ ((s : Int) < 0) := by omega
  simp [this]

theorem snprintf_short (n : Nat) (s : String) (h : s.length ≤ n - 1) : snprintf n s = s := by
  unfold snprintf
  rw [List.take_of_length_le h]

theorem pad_zeros_length (k : Nat) (s : String) (h : s.length ≤ k) :
    (pad_zeros k s).length = k := by
  unfold pad_zeros
  rw [String.length_append]
  simp only [String.length, List.length_replicate] at *
  omega

theorem units_get (k : Nat) (hk : k ≤ 8) : ∃ u, units[k]? = some u ∧ u.length ≤ 2 := by
  interval_cases k <;> exact ⟨_, rfl, by decide⟩

/-- The text `%.*f` gives for a non-negative value below 1024 with `k`
decimals has at most `5 + k` characters. -/
theorem fmt_f_length (n k : Nat) (h : n < 1024 ^ (k + 1)) :
    (fmt_f k { m := n, e := 10 * k }).length ≤ 5 + k := by
  have hpos : 0 < 2 ^ (10 * k) := Nat.pow_pos (by norm_num)
  have h10 : 0 < 10 ^ k := Nat.pow_pos (by norm_num)
  have hR : round_half_even (n * 10 ^ k) (2 ^ (10 * k)) ≤ 1024 * 10 ^ k := by
    have h1 := round_half_even_le (n * 10 ^ k) (2 ^ (10 * k))
    have h2 : n * 10 ^ k < (1024 * 10 ^ k) * 2 ^ (10 * k) := by
      have : n < 1024 * 2 ^ (10 * k) := by
        have e : (1024 : Nat) ^ (k + 1) = 1024 * 2 ^ (10 * k) := by
          rw [pow_succ, pow_1024]; ring
        rwa [e] at h
      calc n * 10 ^ k < (1024 * 2 ^ (10 * k)) * 10 ^ k := Nat.mul_lt_mul_of_pos_right this h10
        _ = (1024 * 10 ^ k) * 2 ^ (10 * k) := by ring
    have h3 : n * 10 ^ k / 2 ^ (10 * k) < 1024 * 10 ^ k := (Nat.div_lt_iff_lt_mul hpos).mpr h2
    omega
  unfold fmt_f
  simp only [Int.natAbs_ofNat]
  have hs : ¬ ((n : Int) < 0) := by omega
  rw [if_neg hs]
  by_cases hk : k = 0
  · subst hk
    rw [if_pos rfl]
    simp only [pow_zero, Nat.mul_one] at hR
    have := Nat.repr_length (round_half_even (n * 10 ^ 0) (2 ^ (10 * 0))) 4 (by norm_num)
      (by simp only [pow_zero, Nat.mul_one]; omega)
    simp only [String.length_append] at *
    have e : ("" : String).length = 0 := rfl
    omega
  · rw [if_neg hk]
    have hq : round_half_even (n * 10 ^ k) (2 ^ (10 * k)) / 10 ^ k ≤ 1024 :=
      Nat.div_le_of_le_mul (by
        have e : 10 ^ k * 1024 = 1024 * 10 ^ k := Nat.mul_comm _ _
        rw [e]; exact hR)
    have l1 := Nat.repr_length (round_half_even (n * 10 ^ k) (2 ^ (10 * k)) / 10 ^ k) 4
      (by norm_num) (by omega)
    have l2 := Nat.repr_length (round_half_even (n * 10 ^ k) (2 ^ (10 * k)) % 10 ^ k) k
      (by omega) (Nat.mod_lt _ h10)
    have l3 := pad_zeros_length k _ l2
    simp only [String.length_append]
    rw [l3]
    have e : ("" : String).length = 0 := rfl
    have e2 : (".": String).length = 1 := rfl
    omega

end Ffm
namespace Ffm

theorem scaled_lt_iff (n k : Nat) : (n : ℚ) / 1024 ^ k < 1024 ↔ n < 1024 ^ (k + 1) := by
  have hpos : (0 : ℚ) < 1024 ^ k := by positivity
  rw [div_lt_iff₀ hpos]
  have e : (1024 : ℚ) * 1024 ^ k = ((1024 ^ (k + 1) : Nat) : ℚ) := by
    push_cast; ring
  rw [e, Nat.cast_lt]

/-- The scaling and the text of `readable_fs` on a byte count below
`2 ^ 63`, in terms of the `double` the parameter receives. -/
theorem readable_fs_scaled (s : Nat) (hs : s < 2 ^ 63) (type : Nat) (ht : type ≠ DT_DIR) :
    ∃ k u, k ≤ 6 ∧
      (round_to_double s : ℚ) / 1024 ^ k < 1024 ∧
      (∀ j, (round_to_double s : ℚ) / 1024 ^ j < 1024 → k ≤ j) ∧
      readable_fs_scale (double.of_off_t s) = ({ m := round_to_double s, e := 10 * k }, k) ∧
      (double.toRat { m := round_to_double s, e := 10 * k }) =
        (round_to_double s : ℚ) / 1024 ^ k ∧
      units[k]? = some u ∧
      readable_fs (double.of_off_t s) type =
        Outcome.ok (fmt_f k { m := round_to_double s, e := 10 * k } ++ " " ++ u) := by
  have hN := round_to_double_lt s hs
  generalize hNdef : round_to_double s = N at hN
  have hex : ∃ k, N < 1024 ^ (k + 1) := ⟨6, hN⟩
  let k := Nat.find hex
  have hk_spec : N < 1024 ^ (k + 1) := Nat.find_spec hex
  have hk_min : ∀ j, N < 1024 ^ (j + 1) → k ≤ j := fun j hj => Nat.find_min' hex hj
  have hk6 : k ≤ 6 := hk_min 6 hN
  have hlo : k = 0 ∨ 1024 ^ k ≤ N := by
    rcases Nat.eq_zero_or_pos k with h0 | hpos
    · exact Or.inl h0
    · right
      by_contra hlt
      have hlt2 : N < 1024 ^ (k - 1 + 1) := by
        have : k - 1 + 1 = k := by omega
        rw [this]; omega
      have := hk_min (k - 1) hlt2
      omega
  obtain ⟨u, hu, hulen⟩ := units_get k (by omega)
  have hscale : readable_fs_scale (double.of_off_t s) = ({ m := N, e := 10 * k }, k) := by
    rw [of_off_t_nat, hNdef]
    exact readable_fs_scale_nat N k hlo (Or.inl hk_spec) (by omega)
  refine ⟨k, u, hk6, (scaled_lt_iff N k).mpr hk_spec, ?_, hscale, ?_, hu, ?_⟩
  · intro j hj
    exact hk_min j ((scaled_lt_iff N j).mp hj)
  · unfold double.toRat
    simp only
    have : (2 : ℚ) ^ (10 * k) = 1024 ^ k := by rw [pow_mul]; norm_num
    rw [this]
    push_cast
    rfl
  · unfold readable_fs
    simp only [hscale, hu]
    rw [if_pos ht]
    congr 1
    apply snprintf_short
    have hl := fmt_f_length N k hk_spec
    simp only [String.length_append]
    have e : (" " : String).length = 1 := rfl
    omega

end Ffm
namespace Ffm

/-! ## Directory lister -/

theorem readable_fs_ok (s : Int) (hs : s < 2 ^ 63) (type : Nat) :
    ∃ str, readable_fs (double.of_off_t s) type = Outcome.ok str := by
  by_cases ht : type = DT_DIR
  · exact ⟨"<DIR>", by unfold readable_fs; simp [ht]⟩
  · rcases lt_or_le s 0 with hneg | hpos
    · have hm : (double.of_off_t s).m < 1024 * (2 : Int) ^ (double.of_off_t s).e := by
        unfold double.of_off_t
        simp only [if_pos hneg, pow_zero]
        omega
      have hscale : readable_fs_scale (double.of_off_t s) = (double.of_off_t s, 0) :=
        readable_fs_loop_stop 9 _ 0 (Or.inl hm)
      refine ⟨snprintf 32 (fmt_f 0 (double.of_off_t s) ++ " " ++ "B"), ?_⟩
      unfold readable_fs
      simp only [hscale]
      rw [if_pos ht]
      rfl
    · obtain ⟨n, rfl⟩ := Int.eq_ofNat_of_zero_le hpos
      have hn : n < 2 ^ 63 := by exact_mod_cast hs
      obtain ⟨k, u, _, _, _, _, _, _, h⟩ := readable_fs_scaled n hn type ht
      exact ⟨_, h⟩

theorem snprintf_s_name (s : CStr) (h : IsName s) : snprintf_s FILENAME_MAX s = s := by
  unfold snprintf_s
  have h0 : 0 ∉ s := fun hm => by have := (h.1 0 hm).1; omega
  rw [c_str_of_no_nul s h0]
  apply List.take_of_length_le
  have := h.2
  simp only [FILENAME_MAX]
  omega

theorem get_file_entry_ok (env : Env) (dp : dirent) (hn : IsName dp.d_name)
    (hr : Resolvable env dp) :
    ∃ e, get_file_entry env dp = Outcome.ok e ∧ e.name = dp.d_name := by
  obtain ⟨st, hst, hsize, htime, hpath⟩ := hr
  obtain ⟨str, hstr⟩ := readable_fs_ok st.st_size hsize dp.d_type
  obtain ⟨date, hdate⟩ := Option.isSome_iff_exists.mp htime
  unfold get_file_entry
  simp only [hst, hdate, hstr]
  unfold resolve_absolute_path
  cases hrp : env.realpath dp.d_name with
  | some p => exact ⟨_, rfl, snprintf_s_name _ hn⟩
  | none =>
    rw [hrp] at hpath
    have hl : S_ISLNK st.st_mode = true := by
      rcases hpath with h | h
      · simp at h
      · exact h
    simp only [hl, if_true]
    exact ⟨_, rfl, snprintf_s_name _ hn⟩

theorem strcmp_name_eq_zero (s t : CStr) (hs : IsName s) (ht : 0 ∉ t) :
    strcmp s t = 0 ↔ s = t := by
  have h0 : 0 ∉ s := fun hm => by have := (hs.1 0 hm).1; omega
  rw [strcmp_eq_zero_iff, c_str_of_no_nul s h0, c_str_of_no_nul t ht]

theorem kept_names_cons_skip (dp : dirent) (rest : List dirent)
    (h : dp.d_name = lit "." ∨ dp.d_name = lit "..") :
    kept_names (dp :: rest) = kept_names rest := by
  unfold kept_names
  rw [List.map_cons, List.filter_cons_of_neg]
  simp only [decide_eq_true_eq, not_and_or, not_not]
  exact h

theorem kept_names_cons_keep (dp : dirent) (rest : List dirent)
    (h1 : dp.d_name ≠ lit ".") (h2 : dp.d_name ≠ lit "..") :
    kept_names (dp :: rest) = dp.d_name :: kept_names rest := by
  unfold kept_names
  rw [List.map_cons, List.filter_cons_of_pos]
  simp only [decide_eq_true_eq]
  exact ⟨h1, h2⟩

theorem store_entry_append (fl : FILE_LIST) (capacity : Int) (e : FILE_ENTRY)
    (hlen : fl.filecount = fl.files.length) (hcap : fl.filecount < capacity) :
    store_entry fl capacity e =
      Outcome.ok { filecount := fl.filecount + 1, files := fl.files ++ [e] } := by
  unfold store_entry
  have h0 : 0 ≤ fl.filecount := by rw [hlen]; exact Int.ofNat_nonneg _
  rw [if_pos ⟨h0, hcap⟩]
  have e1 : fl.filecount.toNat = fl.files.length := by rw [hlen]; rfl
  rw [e1, List.take_of_length_le (le_refl _), List.drop_of_length_le (by omega)]
  simp

/-- The enumeration loop over `entries`, followed by `rest`: as long as the
number of stored entries stays within `2 ^ 30`, every kept name is appended
once, in order, and the capacity remains a power of two up to `2 ^ 30` that
covers the count. -/
theorem get_files_loop_append (env : Env) (halloc : ∀ n, env.alloc n = true)
    (entries : List dirent) : ∀ (rest : List dirent) (fl : FILE_LIST) (a : Nat),
    (∀ dp ∈ entries, IsName dp.d_name) →
    (∀ dp ∈ entries, dp.d_name ≠ lit "." → dp.d_name ≠ lit ".." → Resolvable env dp) →
    7 ≤ a → a ≤ 30 → fl.filecount = fl.files.length → fl.files.length ≤ 2 ^ a →
    fl.files.length + (kept_names entries).length ≤ 2 ^ 30 →
    ∃ (fl2 : FILE_LIST) (a2 : Nat),
      get_files_loop env (entries ++ rest) fl ((2 ^ a : Nat) : Int) =
        get_files_loop env rest fl2 ((2 ^ a2 : Nat) : Int) ∧
      fl2.files.map (fun e => e.name) = fl.files.map (fun e => e.name) ++ kept_names entries ∧
      fl2.filecount = fl2.files.length ∧ 7 ≤ a2 ∧ a2 ≤ 30 ∧ fl2.files.length ≤ 2 ^ a2 := by
  induction entries with
  | nil =>
    intro rest fl a _ _ h7 h30 hlen hcap _
    exact ⟨fl, a, rfl, by simp [kept_names], hlen, h7, h30, hcap⟩
  | cons dp entries ih =>
    intro rest fl a hnames hres h7 h30 hlen hcap hcount
    have hn := hnames dp (List.mem_cons_self _ _)
    have hnames2 : ∀ d ∈ entries, IsName d.d_name :=
      fun d hd => hnames d (List.mem_cons_of_mem _ hd)
    have hres2 : ∀ d ∈ entries, d.d_name ≠ lit "." → d.d_name ≠ lit ".." → Resolvable env d :=
      fun d hd => hres d (List.mem_cons_of_mem _ hd)
    have hdot : strcmp dp.d_name (lit ".") = 0 ↔ dp.d_name = lit "." :=
      strcmp_name_eq_zero _ _ hn (by decide)
    have hdotdot : strcmp dp.d_name (lit "..") = 0 ↔ dp.d_name = lit ".." :=
      strcmp_name_eq_zero _ _ hn (by decide)
    rw [List.cons_append, get_files_loop]
    by_cases h1 : dp.d_name = lit "."
    · rw [if_pos (hdot.mpr h1)]
      rw [kept_names_cons_skip dp entries (Or.inl h1)] at hcount ⊢
      exact ih rest fl a hnames2 hres2 h7 h30 hlen hcap hcount
    · rw [if_neg (fun h => h1 (hdot.mp h))]
      by_cases h2 : dp.d_name = lit ".."
      · rw [if_pos (hdotdot.mpr h2)]
        rw [kept_names_cons_skip dp entries (Or.inr h2)] at hcount ⊢
        exact ih rest fl a hnames2 hres2 h7 h30 hlen hcap hcount
      · rw [if_neg (fun h => h2 (hdotdot.mp h))]
        rw [kept_names_cons_keep dp entries h1 h2] at hcount ⊢
        simp only [List.length_cons] at hcount
        obtain ⟨e, he, hename⟩ := get_file_entry_ok env dp hn (hres dp (List.mem_cons_self _ _) h1 h2)
        -- the capacity after `ensure_list_capacity`
        have hens : ∃ a1, 7 ≤ a1 ∧ a1 ≤ 30 ∧ fl.files.length < 2 ^ a1 ∧
            ensure_list_capacity env fl ((2 ^ a : Nat) : Int) =
              Outcome.ok (0, ((2 ^ a1 : Nat) : Int)) := by
          unfold ensure_list_capacity
          by_cases hlt : fl.files.length < 2 ^ a
          · refine ⟨a, h7, h30, hlt, ?_⟩
            have : fl.filecount < ((2 ^ a : Nat) : Int) := by rw [hlen]; exact_mod_cast hlt
            rw [if_pos this]
          · have heq : fl.files.length = 2 ^ a := by omega
            have ha29 : a ≤ 29 := by
              by_contra hcon
              have : a = 30 := by omega
              subst this
              omega
            have hpow : (2 : Nat) ^ (a + 1) ≤ 2 ^ 30 := Nat.pow_le_pow_right (by norm_num) (by omega)
            have hdouble : ((2 ^ a : Nat) : Int) * 2 = ((2 ^ (a + 1) : Nat) : Int) := by
              push_cast; ring
            refine ⟨a + 1, by omega, by omega, ?_, ?_⟩
            · have hpos : 0 < 2 ^ a := Nat.pow_pos (by norm_num)
              rw [heq, pow_succ]; omega
            · have hnlt : ¬ fl.filecount < ((2 ^ a : Nat) : Int) := by
                rw [hlen]; intro h; exact hlt (by exact_mod_cast h)
              rw [if_neg hnlt]
              have hnov : ¬ ((2 ^ a : Nat) : Int) * 2 > INT_MAX := by
                rw [hdouble]
                have : ((2 ^ (a + 1) : Nat) : Int) ≤ ((2 ^ 30 : Nat) : Int) := by exact_mod_cast hpow
                simp only [INT_MAX]
                norm_num at this ⊢
                omega
              rw [if_neg hnov]
              simp only [halloc, if_true, hdouble]
        obtain ⟨a1, h7', h30', hlt1, hens⟩ := hens
        rw [hens]
        simp only [he]
        have hneq : ¬ ((0 : Int) = -1) := by decide
        rw [if_neg hneq]
        have hstore := store_entry_append fl ((2 ^ a1 : Nat) : Int) e hlen
          (by rw [hlen]; exact_mod_cast hlt1)
        rw [hstore]
        simp only
        obtain ⟨fl2, a2, hrun, hmap, hlen2, h7'', h30'', hcap2⟩ :=
          ih rest { filecount := fl.filecount + 1, files := fl.files ++ [e] } a1 hnames2 hres2
            h7' h30' (by simp [hlen]) (by simp; omega) (by simp; omega)
        refine ⟨fl2, a2, hrun, ?_, hlen2, h7'', h30'', hcap2⟩
        rw [hmap]
        simp [hename]

end Ffm
namespace Ffm

/-- C4, as the code has it. For every sequence of well-formed names that
directory enumeration produces, when no allocation fails, every entry other
than "." and ".." can be resolved (`lstat` succeeds, `localtime` converts the
modification time, `realpath` succeeds or the entry is a symbolic link), and
at most `2 ^ 30` names remain after the filter (the largest capacity the `int` doubling from 128 reaches),
`get_files_in_directory` returns a listing whose names are exactly the
enumerated names without "." and "..", once per occurrence and in enumeration
order, with `filecount` the number of these names; this covers any number of
entries beyond the initial capacity of 128. -/
theorem get_files_in_directory_names (env : Env) (entries : List dirent)
    (halloc : ∀ n, env.alloc n = true)
    (hnames : ∀ dp ∈ entries, IsName dp.d_name)
    (hres : ∀ dp ∈ entries, dp.d_name ≠ lit "." → dp.d_name ≠ lit ".." → Resolvable env dp)
    (hcount : (kept_names entries).length ≤ 2 ^ 30) :
    ∃ fl, get_files_in_directory env (some entries) = Outcome.ok fl ∧
      fl.files.map (fun e => e.name) = kept_names entries ∧
      fl.filecount = (kept_names entries).length := by
  obtain ⟨fl2, a2, hrun, hmap, hlen2, _, _, _⟩ :=
    get_files_loop_append env halloc entries [] { filecount := 0, files := [] } 7
      hnames hres (le_refl _) (by norm_num) rfl (by simp) (by simpa using hcount)
  refine ⟨fl2, ?_, by simpa using hmap, ?_⟩
  · unfold get_files_in_directory
    simp only [halloc, if_true]
    rw [List.append_nil] at hrun
    have e : ((MAX_FILELIST_LEN : Nat) : Int) = ((2 ^ 7 : Nat) : Int) := by decide
    rw [e, hrun]
    rfl
  · rw [hlen2]
    have := congrArg List.length hmap
    simp only [List.length_map, List.map_nil, List.nil_append] at this
    rw [this]

theorem sample_env_resolvable (dp : dirent) : Resolvable sample_env dp :=
  ⟨{ st_size := 10, st_mtime := 0, st_mode := 0o100644 }, rfl, by norm_num, rfl, Or.inl rfl⟩

set_option maxRecDepth 100000 in
theorem get_files_in_directory_names_witness :
    (∀ n, sample_env.alloc n = true) ∧
      (∀ dp ∈ sample_dir, IsName dp.d_name) ∧
      (kept_names sample_dir).length = 131 ∧
      ∃ fl, get_files_in_directory sample_env (some sample_dir) = Outcome.ok fl ∧
        fl.files.map (fun e => e.name) = kept_names sample_dir ∧
        fl.filecount = (kept_names sample_dir).length :=
  ⟨fun _ => rfl, by decide, by decide,
    get_files_in_directory_names sample_env sample_dir (fun _ => rfl) (by decide)
      (fun dp _ _ _ => sample_env_resolvable dp) (by decide)⟩

theorem kept_names_replicate (n : Nat) :
    kept_names (List.replicate n (dirent.mk (lit "a") DT_REG)) = List.replicate n (lit "a") := by
  induction n with
  | zero => rfl
  | succ n ih =>
    rw [List.replicate_succ, kept_names_cons_keep _ _ (by decide) (by decide), ih]
    rfl

theorem get_files_loop_replicate (n : Nat) (hn : n ≤ 2 ^ 30) (rest : List dirent) :
    ∃ (fl2 : FILE_LIST) (a2 : Nat),
      get_files_loop sample_env (List.replicate n (dirent.mk (lit "a") DT_REG) ++ rest)
          { filecount := 0, files := [] } ((2 ^ 7 : Nat) : Int) =
        get_files_loop sample_env rest fl2 ((2 ^ a2 : Nat) : Int) ∧
      fl2.filecount = fl2.files.length ∧ fl2.files.length = n ∧ a2 ≤ 30 ∧
      fl2.files.length ≤ 2 ^ a2 := by
  have hname : IsName (lit "a") := by decide
  have hk : (kept_names (List.replicate n (dirent.mk (lit "a") DT_REG))).length = n := by
    rw [kept_names_replicate, List.length_replicate]
  obtain ⟨fl2, a2, hrun, hmap, hlen2, _, h30, hcap⟩ :=
    get_files_loop_append sample_env (fun _ => rfl)
      (List.replicate n (dirent.mk (lit "a") DT_REG)) rest
      { filecount := 0, files := [] } 7
      (fun dp hdp => by rw [List.eq_of_mem_replicate hdp]; exact hname)
      (fun dp _ _ _ => sample_env_resolvable dp) (le_refl _) (by norm_num) rfl
      (Nat.zero_le _) (by rw [hk]; simpa using hn)
  refine ⟨fl2, a2, hrun, hlen2, ?_, h30, hcap⟩
  have := congrArg List.length hmap
  rw [List.length_append, hk] at this
  simpa using this

/-- C4, as stated, fails for `2 ^ 30 + 1` entries: with every allocation
granted, the enumeration of `2 ^ 30 + 1` files named "a" fills the capacity
`2 ^ 30`, the next `*capacity *= 2` leaves the range of `int`, and no listing
is returned. -/
theorem get_files_in_directory_int_overflow :
    (∀ n, sample_env.alloc n = true) ∧
      get_files_in_directory sample_env
        (some (List.replicate (2 ^ 30 + 1) (dirent.mk (lit "a") DT_REG))) =
        Outcome.undefined := by
  refine ⟨fun _ => rfl, ?_⟩
  obtain ⟨fl2, a2, hrun, hlen2, hlen, h30, hcap⟩ :=
    get_files_loop_replicate (2 ^ 30) (le_refl _) [dirent.mk (lit "a") DT_REG]
  have hpow : (2 : Nat) ^ a2 ≤ 2 ^ 30 := Nat.pow_le_pow_right (by norm_num) h30
  have hcap30 : (2 : Nat) ^ a2 = 2 ^ 30 := le_antisymm hpow (hlen ▸ hcap)
  unfold get_files_in_directory
  have e : ((MAX_FILELIST_LEN : Nat) : Int) = ((2 ^ 7 : Nat) : Int) := by decide
  have halloc : sample_env.alloc (MAX_FILELIST_LEN * sizeof_FILE_ENTRY) = true := rfl
  show (if sample_env.alloc (MAX_FILELIST_LEN * sizeof_FILE_ENTRY) = true then
      get_files_loop sample_env (List.replicate (2 ^ 30 + 1) (dirent.mk (lit "a") DT_REG))
        { filecount := 0, files := [] } ((MAX_FILELIST_LEN : Nat) : Int)
    else Outcome.exit_failure) = Outcome.undefined
  rw [if_pos halloc, e, List.replicate_succ', hrun, hcap30]
  have hd1 : strcmp (lit "a") (lit ".") ≠ 0 := by decide
  have hd2 : strcmp (lit "a") (lit "..") ≠ 0 := by decide
  have hens : ensure_list_capacity sample_env fl2 ((2 ^ 30 : Nat) : Int) = Outcome.undefined := by
    unfold ensure_list_capacity
    have h1 : ¬ fl2.filecount < ((2 ^ 30 : Nat) : Int) := by
      rw [hlen2, hlen]; exact lt_irrefl _
    rw [if_neg h1]
    have h2 : ((2 ^ 30 : Nat) : Int) * 2 > INT_MAX := by decide
    rw [if_pos h2]
  rw [get_files_loop, if_neg hd1, if_neg hd2, hens]

end Ffm
namespace Ffm

/-! ## Navigation -/

theorem strncpy_path (s : CStr) (h0 : 0 ∉ s) (hlen : s.length < PATH_MAX) :
    strncpy s PATH_MAX = s := by
  unfold strncpy
  rw [c_str_of_no_nul s h0]
  exact List.take_of_length_le (le_of_lt hlen)

/-- C5. For every navigation state and every selected entry `e` (its path a
proper string in its `PATH_MAX` buffer), the confirm event, KEY_RIGHT or
Enter: when the kind of `e` is directory or symlink, `current_dir` becomes the
path of `e`, the reload flag is set and the sort mode is unchanged; for every
other kind the state is left exactly as it was. -/
theorem confirm_event (st : NavState) (e : FILE_ENTRY) (c : Int)
    (hc : c = KEY_RIGHT ∨ c = ENTER) (h0 : 0 ∉ e.path) (hlen : e.path.length < PATH_MAX) :
    ((e.type = DT_DIR ∨ e.type = DT_LNK) →
        handle_key c (some e) st =
          Outcome.ok { current_dir := e.path, current_sort := st.current_sort,
                       should_reload := true }) ∧
      (¬ (e.type = DT_DIR ∨ e.type = DT_LNK) → handle_key c (some e) st = Outcome.ok st) := by
  have h1 : ¬ c = KEY_DOWN := by rcases hc with h | h <;> rw [h] <;> decide
  have h2 : ¬ c = KEY_UP := by rcases hc with h | h <;> rw [h] <;> decide
  have h3 : ¬ c = KEY_LEFT := by rcases hc with h | h <;> rw [h] <;> decide
  constructor
  · intro ht
    unfold handle_key
    rw [if_neg h1, if_neg h2, if_neg h3, if_pos hc]
    simp only [if_pos ht, strncpy_path e.path h0 hlen]
  · intro ht
    unfold handle_key
    rw [if_neg h1, if_neg h2, if_neg h3, if_pos hc]
    simp only [if_neg ht]

theorem confirm_event_witness :
    (ENTER = KEY_RIGHT ∨ ENTER = ENTER) ∧
      handle_key ENTER
          (some { name := lit "docs", date := "", path := lit "/home/user/docs",
                  display_info := "", type := DT_DIR, size := 4096 })
          { current_dir := lit "/home/user", current_sort := SORT_TYPE.FILESIZE,
            should_reload := false } =
        Outcome.ok { current_dir := lit "/home/user/docs",
                     current_sort := SORT_TYPE.FILESIZE, should_reload := true } ∧
      handle_key KEY_RIGHT
          (some { name := lit "readme.txt", date := "", path := lit "/home/user/readme.txt",
                  display_info := "", type := DT_REG, size := 10 })
          { current_dir := lit "/home/user", current_sort := SORT_TYPE.FILESIZE,
            should_reload := false } =
        Outcome.ok { current_dir := lit "/home/user", current_sort := SORT_TYPE.FILESIZE,
                     should_reload := false } :=
  ⟨by decide,
    (confirm_event
      { current_dir := lit "/home/user", current_sort := SORT_TYPE.FILESIZE,
        should_reload := false }
      { name := lit "docs", date := "", path := lit "/home/user/docs", display_info := "",
        type := DT_DIR, size := 4096 }
      ENTER (by decide) (by decide) (by decide)).1 (by decide),
    (confirm_event
      { current_dir := lit "/home/user", current_sort := SORT_TYPE.FILESIZE,
        should_reload := false }
      { name := lit "readme.txt", date := "", path := lit "/home/user/readme.txt",
        display_info := "", type := DT_REG, size := 10 }
      KEY_RIGHT (by decide) (by decide) (by decide)).2 (by decide)⟩

/-- C6. For every navigation state, a sort-switch key (`s` for size, `a` for
name) whose mode is already active leaves the whole state unchanged, the
reload flag included; when the mode differs, the sort mode becomes the
requested one, the reload flag is set and `current_dir` is unchanged. -/
theorem sort_switch_event (st : NavState) (sel : Option FILE_ENTRY) :
    (st.current_sort = SORT_TYPE.FILESIZE →
        handle_key ('s'.toNat : Int) sel st = Outcome.ok st) ∧
      (st.current_sort ≠ SORT_TYPE.FILESIZE →
        handle_key ('s'.toNat : Int) sel st =
          Outcome.ok { current_dir := st.current_dir, current_sort := SORT_TYPE.FILESIZE,
                       should_reload := true }) ∧
      (st.current_sort = SORT_TYPE.ALPHABETICAL →
        handle_key ('a'.toNat : Int) sel st = Outcome.ok st) ∧
      (st.current_sort ≠ SORT_TYPE.ALPHABETICAL →
        handle_key ('a'.toNat : Int) sel st =
          Outcome.ok { current_dir := st.current_dir, current_sort := SORT_TYPE.ALPHABETICAL,
                       should_reload := true }) := by
  have s1 : ¬ (('s'.toNat : Int) = KEY_DOWN) := by decide
  have s2 : ¬ (('s'.toNat : Int) = KEY_UP) := by decide
  have s3 : ¬ (('s'.toNat : Int) = KEY_LEFT) := by decide
  have s4 : ¬ (('s'.toNat : Int) = KEY_RIGHT ∨ ('s'.toNat : Int) = ENTER) := by decide
  have a1 : ¬ (('a'.toNat : Int) = KEY_DOWN) := by decide
  have a2 : ¬ (('a'.toNat : Int) = KEY_UP) := by decide
  have a3 : ¬ (('a'.toNat : Int) = KEY_LEFT) := by decide
  have a4 : ¬ (('a'.toNat : Int) = KEY_RIGHT ∨ ('a'.toNat : Int) = ENTER) := by decide
  have a5 : ¬ (('a'.toNat : Int) = ('s'.toNat : Int)) := by decide
  refine ⟨?_, ?_, ?_, ?_⟩
  · intro h
    unfold handle_key
    rw [if_neg s1, if_neg s2, if_neg s3, if_neg s4, if_pos rfl, if_neg (not_not.mpr h)]
  · intro h
    unfold handle_key
    rw [if_neg s1, if_neg s2, if_neg s3, if_neg s4, if_pos rfl, if_pos h]
  · intro h
    unfold handle_key
    rw [if_neg a1, if_neg a2, if_neg a3, if_neg a4, if_neg a5, if_pos rfl,
      if_neg (not_not.mpr h)]
  · intro h
    unfold handle_key
    rw [if_neg a1, if_neg a2, if_neg a3, if_neg a4, if_neg a5, if_pos rfl, if_pos h]

theorem sort_switch_event_witness :
    handle_key ('s'.toNat : Int) none
        { current_dir := lit "/home", current_sort := SORT_TYPE.FILESIZE,
          should_reload := false } =
      Outcome.ok { current_dir := lit "/home", current_sort := SORT_TYPE.FILESIZE,
                   should_reload := false } ∧
      handle_key ('a'.toNat : Int) none
          { current_dir := lit "/home", current_sort := SORT_TYPE.FILESIZE,
            should_reload := false } =
        Outcome.ok { current_dir := lit "/home", current_sort := SORT_TYPE.ALPHABETICAL,
                     should_reload := true } :=
  ⟨(sort_switch_event
      { current_dir := lit "/home", current_sort := SORT_TYPE.FILESIZE,
        should_reload := false } none).1 rfl,
    (sort_switch_event
      { current_dir := lit "/home", current_sort := SORT_TYPE.FILESIZE,
        should_reload := false } none).2.2.2 (by decide)⟩

/-- C8, as the code has it. For every entry that is a symbolic link whose
path resolution fails (its modification time one that `localtime` converts),
`get_file_entry` builds an entry with the empty path
and the display text exactly "broken symlink"; a confirm on it, its
enumeration kind being symlink, sets `current_dir` to the empty string and
sets the reload flag, the sort mode unchanged; the reload that follows makes
no `chdir` for the empty path, so the working directory stays the same. -/
theorem broken_symlink_entry (env : Env) (dp : dirent) (st : stat) (date : String)
    (nav : NavState) (os : OS) (cwd : CStr) (c : Int)
    (hst : env.lstat dp.d_name = some st) (hsize : st.st_size < 2 ^ 63)
    (htime : env.format_time_string st.st_mtime = some date)
    (hlnk : S_ISLNK st.st_mode = true) (hrp : env.realpath dp.d_name = none)
    (htype : dp.d_type = DT_LNK) (hc : c = KEY_RIGHT ∨ c = ENTER) :
    ∃ e, get_file_entry env dp = Outcome.ok e ∧ e.path = [] ∧
      e.display_info = "broken symlink" ∧
      handle_key c (some e) nav =
        Outcome.ok { current_dir := [], current_sort := nav.current_sort,
                     should_reload := true } ∧
      load_directory_menu_chdir os [] cwd = cwd := by
  obtain ⟨str, hstr⟩ := readable_fs_ok st.st_size hsize dp.d_type
  have he : get_file_entry env dp =
      Outcome.ok
        { name := snprintf_s FILENAME_MAX dp.d_name,
          date := date, path := [],
          display_info := snprintf 15 "broken symlink", type := dp.d_type,
          size := st.st_size } := by
    unfold get_file_entry
    simp only [hst, htime, hstr]
    unfold resolve_absolute_path
    simp only [hrp, hlnk, if_true]
  have hlabel : snprintf 15 "broken symlink" = "broken symlink" := by decide
  refine ⟨_, he, rfl, hlabel, ?_, ?_⟩
  · have h1 : ¬ c = KEY_DOWN := by rcases hc with h | h <;> rw [h] <;> decide
    have h2 : ¬ c = KEY_UP := by rcases hc with h | h <;> rw [h] <;> decide
    have h3 : ¬ c = KEY_LEFT := by rcases hc with h | h <;> rw [h] <;> decide
    unfold handle_key
    rw [if_neg h1, if_neg h2, if_neg h3, if_pos hc]
    simp only [htype, or_true, if_true]
    rfl
  · unfold load_directory_menu_chdir
    have : strcmp [] (lit "") = 0 := by decide
    simp [this]

theorem broken_symlink_entry_witness :
    broken_link_env.lstat (lit "dangling") =
        some { st_size := 7, st_mtime := 0, st_mode := 0o120777 } ∧
      broken_link_env.format_time_string 0 = some "Thu Jan  1 00:00:00 1970" ∧
      S_ISLNK 0o120777 = true ∧ broken_link_env.realpath (lit "dangling") = none ∧
      ∃ e, get_file_entry broken_link_env (dirent.mk (lit "dangling") DT_LNK) = Outcome.ok e ∧
        e.path = [] ∧ e.display_info = "broken symlink" ∧
        handle_key ENTER (some e)
            { current_dir := lit "/home", current_sort := SORT_TYPE.ALPHABETICAL,
              should_reload := false } =
          Outcome.ok { current_dir := [], current_sort := SORT_TYPE.ALPHABETICAL,
                       should_reload := true } ∧
        load_directory_menu_chdir sample_os [] (lit "/home") = lit "/home" :=
  ⟨rfl, rfl, by decide, rfl,
    broken_symlink_entry broken_link_env (dirent.mk (lit "dangling") DT_LNK)
      { st_size := 7, st_mtime := 0, st_mode := 0o120777 } "Thu Jan  1 00:00:00 1970"
      { current_dir := lit "/home", current_sort := SORT_TYPE.ALPHABETICAL,
        should_reload := false }
      sample_os (lit "/home") ENTER rfl (by decide) rfl (by decide) rfl rfl (by decide)⟩

/-- C8, as stated, fails: a confirm on the broken link `dangling`, in the
state that lists `/home` with no reload pending, is no no-op; the reload flag
is set and `current_dir` becomes the empty string. -/
theorem broken_symlink_confirm_not_noop :
    ∃ e, get_file_entry broken_link_env (dirent.mk (lit "dangling") DT_LNK) = Outcome.ok e ∧
      e.type = DT_LNK ∧ e.path = [] ∧ e.display_info = "broken symlink" ∧
      handle_key ENTER (some e)
          { current_dir := lit "/home", current_sort := SORT_TYPE.ALPHABETICAL,
            should_reload := false } =
        Outcome.ok { current_dir := [], current_sort := SORT_TYPE.ALPHABETICAL,
                     should_reload := true } ∧
      handle_key ENTER (some e)
          { current_dir := lit "/home", current_sort := SORT_TYPE.ALPHABETICAL,
            should_reload := false } ≠
        Outcome.ok { current_dir := lit "/home", current_sort := SORT_TYPE.ALPHABETICAL,
                     should_reload := false } :=
  ⟨{ name := lit "dangling", date := "Thu Jan  1 00:00:00 1970", path := [],
     display_info := "broken symlink", type := DT_LNK, size := 7 },
    by decide, by decide, by decide, by decide, by decide, by decide⟩

/-- C9, the code at the failing input: started on `/home/user/docs`, after
KEY_LEFT the directory on display is `/home/user`; a KEY_RESIZE then makes the
reload run `chdir("..")` once more, and the directory on display is `/home`. -/
theorem resize_after_parent_moves_up :
    working_directory (main_from sample_os qsort_stable (lit "/") (lit "/home/user/docs")
        [(KEY_LEFT, none)]) = some (lit "/home/user") ∧
      working_directory (main_from sample_os qsort_stable (lit "/") (lit "/home/user/docs")
        [(KEY_LEFT, none), (KEY_RESIZE, none)]) = some (lit "/home") ∧
      handle_key KEY_LEFT none
          { current_dir := lit "/home/user/docs", current_sort := SORT_TYPE.ALPHABETICAL,
            should_reload := false } =
        Outcome.ok { current_dir := lit "..", current_sort := SORT_TYPE.ALPHABETICAL,
                     should_reload := true } := by
  decide

end Ffm
